import Mathlib

/-!
Verification of the sticker-encoders layer encoder.

The development embeds the repository's three source files:
* `src/layer/mod.rs` — the `Layer` selector, the `LayerValue` interface and
  the `LayerEncoder` encode/decode engine;
* `src/compat/conllu.rs` — the `LayerValue` implementation for CoNLL-U
  sentences (`form`, `value`, `set_value`);
* `src/traits.rs` — auxiliary capabilities (not needed by the claims).

Rust panics (`assert!`, `expect`, out-of-bounds indexing) are embedded as the
`Res.panicked` outcome carrying the panic message; normal returns are
`Res.ret`.  Fallible results (`Result<T, E>`) are embedded as `Except`.
The conllu crate's token containers are external to the repository; their
maps are embedded as association lists with BTreeMap-style insert/lookup,
and the feature-string rendering/parsing is modelled from the spec.
-/

/-- Outcome of a Rust computation that may panic: `panicked msg` is an abort
with the panic message, `ret a` a normal return. -/
inductive Res (α : Type) where
  | panicked (msg : String)
  | ret (a : α)
deriving Repr, DecidableEq

/-- A key lookup in an association-list map (first binding wins, as in a map
with unique keys). -/
def lookupAssoc {β : Type} (k : String) : List (String × β) → Option β
  | [] => none
  | (k', v) :: rest => if k = k' then some v else lookupAssoc k rest

/-- Map insertion: overwrite the binding of `k` if present, else append.
This is the observable behaviour of the conllu crate's map `insert`. -/
def insertAssoc {β : Type} (k : String) (v : β) : List (String × β) → List (String × β)
  | [] => [(k, v)]
  | (k', v') :: rest =>
    if k = k' then (k, v) :: rest else (k', v') :: insertAssoc k v rest

/-- A CoNLL-U token: surface form, part-of-speech tags, morphological feature
map (string → string) and miscellaneous map (string → optional string, so a
key can be present without a value). Embeds the conllu crate's `Token` as
used by `src/compat/conllu.rs`. -/
structure Token where
  form : String
  upos : Option String
  xpos : Option String
  feats : List (String × String)
  misc : List (String × Option String)
deriving Repr, DecidableEq

/-- A sentence: node 0 is the synthetic root, nodes `1..len` are the tokens
of this list. -/
structure Sentence where
  tokens : List Token
deriving Repr, DecidableEq

/-- Total node count including the root node, as `Sentence::len`. -/
def Sentence.len (s : Sentence) : Nat := s.tokens.length + 1

/-- Split a character list at every occurrence of the separator `c`; the
result always has at least one (possibly empty) group. -/
def splitOnChar (c : Char) : List Char → List (List Char)
  | [] => [[]]
  | ch :: rest =>
    match splitOnChar c rest with
    | [] => if ch = c then [[], []] else [[ch]]
    | g :: gs => if ch = c then [] :: g :: gs else (ch :: g) :: gs

/-- Interleave the separator `c` between the given character-list groups
(inverse of `splitOnChar`). -/
def joinSep (c : Char) : List (List Char) → List Char
  | [] => []
  | [g] => g
  | g :: gs => g ++ c :: joinSep c gs

/-- Modelled from the spec: the conllu crate's rendering of a feature map as
one `|`-delimited string of `key=value` pairs, with the empty map rendering
to the placeholder `_` (the representation's canonical empty marker). -/
def renderFeatures (fs : List (String × String)) : String :=
  if fs.isEmpty then "_"
  else ⟨joinSep '|' (fs.map (fun kv => kv.1.data ++ '=' :: kv.2.data))⟩

/-- Modelled from the spec: parsing one `key=value` item; an item with no
`=` separator is malformed (the key is everything before the first `=`). -/
def parsePairChars (p : List Char) : Option (String × String) :=
  match splitOnChar '=' p with
  | [] => none
  | [_] => none
  | k :: rest => some (⟨k⟩, ⟨joinSep '=' rest⟩)

/-- Modelled from the spec: the conllu crate's `Features::try_from(&str)` —
`_` parses to the empty map, otherwise the string splits on `|` into
`key=value` items collected into the map; any malformed item fails the
whole parse. -/
def parseFeatures (s : String) : Option (List (String × String)) :=
  if s = "_" then some []
  else
    match (splitOnChar '|' s.data).mapM parsePairChars with
    | none => none
    | some prs => some (prs.foldl (fun m kv => insertAssoc kv.1 kv.2 m) [])

/-- The tagging layer selector (`Layer` in `src/layer/mod.rs`): which
annotation slot of a token is being read or written. -/
inductive Layer where
  | UPos
  | XPos
  | Feature (feature : String) (default : Option String)
  | FeatureString
  | Misc (feature : String) (default : Option String)
deriving Repr, DecidableEq

/-- Construct a feature layer (`Layer::feature`). -/
def Layer.feature (f : String) (d : Option String) : Layer := Layer.Feature f d

/-- Construct a miscellaneous feature layer (`Layer::misc`). -/
def Layer.misc (f : String) (d : Option String) : Layer := Layer.Misc f d

/-- The per-token slot read of `LayerValue::value` in `src/compat/conllu.rs`:
the `match layer` body once the token has been fetched. -/
def tokenValue (t : Token) : Layer → Option String
  | Layer.UPos => t.upos
  | Layer.XPos => t.xpos
  | Layer.FeatureString => some (renderFeatures t.feats)
  | Layer.Feature f d =>
    match lookupAssoc f t.feats with
    | some v => some v
    | none => d
  | Layer.Misc f d =>
    match lookupAssoc f t.misc with
    | some (some v) => some v
    | some none => none
    | none => d

/-- The per-token slot write of `LayerValue::set_value` in
`src/compat/conllu.rs`: the `match layer` body once the token has been
fetched.  `FeatureString` parses the value and panics (`expect`) when the
parse fails. -/
def setTokenValue (t : Token) (layer : Layer) (value : String) : Res Token :=
  match layer with
  | Layer.UPos => Res.ret { t with upos := some value }
  | Layer.XPos => Res.ret { t with xpos := some value }
  | Layer.Feature f _ => Res.ret { t with feats := insertAssoc f value t.feats }
  | Layer.FeatureString =>
    match parseFeatures value with
    | some fs => Res.ret { t with feats := fs }
    | none => Res.panicked "Invalid feature representation"
  | Layer.Misc f _ => Res.ret { t with misc := insertAssoc f (some value) t.misc }

/-- `LayerValue::form` for sentences: panics on the root node (index 0, via
`assert!`) and on an out-of-range index (via indexing), else returns the
token's surface form. -/
def Sentence.form (s : Sentence) (idx : Nat) : Res String :=
  if idx = 0 then Res.panicked "Attempted to set value on root node"
  else
    match s.tokens[idx - 1]? with
    | none => Res.panicked "index out of bounds"
    | some t => Res.ret t.form

/-- `LayerValue::value` for sentences: panics on the root node and on an
out-of-range index, else reads the slot selected by `layer`. -/
def Sentence.value (s : Sentence) (idx : Nat) (layer : Layer) : Res (Option String) :=
  if idx = 0 then Res.panicked "Attempted to get value from root node"
  else
    match s.tokens[idx - 1]? with
    | none => Res.panicked "index out of bounds"
    | some t => Res.ret (tokenValue t layer)

/-- `LayerValue::set_value` for sentences: panics on the root node and on an
out-of-range index, else writes the slot selected by `layer` (which may
itself panic for a malformed `FeatureString` value). -/
def Sentence.set_value (s : Sentence) (idx : Nat) (layer : Layer) (value : String) :
    Res Sentence :=
  if idx = 0 then Res.panicked "Attempted to set value on root node"
  else
    match s.tokens[idx - 1]? with
    | none => Res.panicked "index out of bounds"
    | some t =>
      match setTokenValue t layer value with
      | Res.panicked m => Res.panicked m
      | Res.ret t' => Res.ret ⟨s.tokens.set (idx - 1) t'⟩

/-- One ranked label candidate (`EncodingProb` in `src/layer/mod.rs`); the
decoder only reads the `encoding` field.  The accompanying probability (an
`f32` never read by this code) is not part of the embedding. -/
structure EncodingProb where
  encoding : String
deriving Repr, DecidableEq

/-- The encode-time error of `src/layer/error.rs`.  Modelled from the spec:
`src/layer/error.rs` is declared by `src/layer/mod.rs` but is not among the
sources; the spec says a MissingLabel error carries the token's surface
form. -/
inductive EncodeError where
  | MissingLabel (form : String)
deriving Repr, DecidableEq

/-- Encode sentences using a CoNLL-X layer (`LayerEncoder`): an immutable
wrapper around exactly one `Layer`. -/
structure LayerEncoder where
  layer : Layer
deriving Repr, DecidableEq

/-- Construct a new layer encoder of the given layer (`LayerEncoder::new`). -/
def LayerEncoder.new (layer : Layer) : LayerEncoder := ⟨layer⟩

/-- The loop of `SentenceEncoder::encode` over the given node indices: read
each index's layer value, failing with `MissingLabel` (carrying the token's
form) at the first index whose value is `none`; the `?` operator returns that
error to the caller immediately. -/
def encodeLoop (layer : Layer) (s : Sentence) :
    List Nat → Res (Except EncodeError (List String))
  | [] => Res.ret (Except.ok [])
  | idx :: rest =>
    match s.value idx layer with
    | Res.panicked m => Res.panicked m
    | Res.ret none =>
      match s.form idx with
      | Res.panicked m => Res.panicked m
      | Res.ret f => Res.ret (Except.error (EncodeError.MissingLabel f))
    | Res.ret (some label) =>
      match encodeLoop layer s rest with
      | Res.panicked m => Res.panicked m
      | Res.ret (Except.error e) => Res.ret (Except.error e)
      | Res.ret (Except.ok ls) => Res.ret (Except.ok (label :: ls))

/-- `SentenceEncoder::encode` for `LayerEncoder`: one label per real token,
in index order `1..len`. -/
def LayerEncoder.encode (e : LayerEncoder) (s : Sentence) :
    Res (Except EncodeError (List String)) :=
  encodeLoop e.layer s (List.range' 1 (s.len - 1))

/-- The loop of `SentenceDecoder::decode`: at enumerated position `idx` the
token at node `idx + 1` receives the first candidate's encoding via
`set_value`; a position with no candidates is skipped.  The sentence is
threaded as state so a panic reports the sentence as mutated so far. -/
def decodeLoop (layer : Layer) :
    List (List EncodingProb) → Nat → Sentence → Sentence × Res (Except String Unit)
  | [], _, s => (s, Res.ret (Except.ok ()))
  | cands :: rest, idx, s =>
    match cands.head? with
    | none => decodeLoop layer rest (idx + 1) s
    | some l =>
      match s.set_value (idx + 1) layer l.encoding with
      | Res.panicked m => (s, Res.panicked m)
      | Res.ret s' => decodeLoop layer rest (idx + 1) s'

/-- `SentenceDecoder::decode` for `LayerEncoder`: asserts that the number of
candidate lists equals the number of real tokens (`len - 1`), panicking on a
mismatch before any write, then runs the write loop; on completion it
returns `Ok(())`. -/
def LayerEncoder.decode (e : LayerEncoder) (labels : List (List EncodingProb))
    (s : Sentence) : Sentence × Res (Except String Unit) :=
  if labels.length = s.len - 1 then decodeLoop e.layer labels 0 s
  else (s, Res.panicked "Labels and sentence length mismatch")

/-- Example token mirroring the repository's `layer` unit test, with one
flag-only misc entry (`w`) added for the present-without-value case. -/
def tokA : Token :=
  { form := "test", upos := some "CP", xpos := some "P",
    feats := [("a", "b"), ("c", "d")],
    misc := [("u", some "v"), ("w", none)] }

/-- Example one-token sentence around `tokA`. -/
def sentA : Sentence := ⟨[tokA]⟩

/-- Example empty token mirroring the repository's `set_layer` unit test. -/
def tokB : Token :=
  { form := "test", upos := none, xpos := none, feats := [], misc := [] }

/-- Example one-token sentence around `tokB`. -/
def sentB : Sentence := ⟨[tokB]⟩

/-- Example token with a pre-existing `upos` value. -/
def tokOld : Token :=
  { form := "test", upos := some "OLD", xpos := none, feats := [], misc := [] }

/-- Example token with `upos` set to `NN`. -/
def tokNN : Token :=
  { form := "test", upos := some "NN", xpos := none, feats := [], misc := [] }

/-- Example two-token sentence before a decode call. -/
def sentC : Sentence := ⟨[tokOld, tokB]⟩

/-- Example two-token sentence after the decode call of the C2 witness. -/
def sentC' : Sentence := ⟨[tokOld, tokNN]⟩

/- Helper lemmas. -/

theorem lookupAssoc_insertAssoc_self {β : Type} (k : String) (v : β)
    (m : List (String × β)) : lookupAssoc k (insertAssoc k v m) = some v := by
  induction m with
  | nil => simp [insertAssoc, lookupAssoc]
  | cons head rest ih =>
    obtain ⟨k', v'⟩ := head
    by_cases h : k = k'
    · simp [insertAssoc, h, lookupAssoc]
    · simp [insertAssoc, h, lookupAssoc, ih]

theorem value_of_token (s : Sentence) (idx : Nat) (t : Token) (layer : Layer)
    (h0 : idx ≠ 0) (ht : s.tokens[idx - 1]? = some t) :
    s.value idx layer = Res.ret (tokenValue t layer) := by
  simp [Sentence.value, h0, ht]

theorem form_of_token (s : Sentence) (idx : Nat) (t : Token)
    (h0 : idx ≠ 0) (ht : s.tokens[idx - 1]? = some t) :
    s.form idx = Res.ret t.form := by
  simp [Sentence.form, h0, ht]

theorem set_value_ret (s : Sentence) (idx : Nat) (t t' : Token) (layer : Layer)
    (v : String) (h0 : idx ≠ 0) (ht : s.tokens[idx - 1]? = some t)
    (hset : setTokenValue t layer v = Res.ret t') :
    s.set_value idx layer v = Res.ret ⟨s.tokens.set (idx - 1) t'⟩ := by
  simp [Sentence.set_value, h0, ht, hset]

theorem set_value_panic (s : Sentence) (idx : Nat) (t : Token) (layer : Layer)
    (v m : String) (h0 : idx ≠ 0) (ht : s.tokens[idx - 1]? = some t)
    (hset : setTokenValue t layer v = Res.panicked m) :
    s.set_value idx layer v = Res.panicked m := by
  simp [Sentence.set_value, h0, ht, hset]

/-- C3: for a non-root token index and a `Misc{feature, default}` layer,
`get` is a three-way lookup on the token's miscellaneous map: key present
with a value returns that value; key present without a value returns none
(the default is not substituted); key absent returns the default. -/
theorem claim_C3_misc_three_way (s : Sentence) (idx : Nat) (t : Token)
    (h0 : idx ≠ 0) (ht : s.tokens[idx - 1]? = some t) (f : String)
    (d : Option String) :
    (∀ v, lookupAssoc f t.misc = some (some v) →
      s.value idx (Layer.Misc f d) = Res.ret (some v)) ∧
    (lookupAssoc f t.misc = some none →
      s.value idx (Layer.Misc f d) = Res.ret none) ∧
    (lookupAssoc f t.misc = none →
      s.value idx (Layer.Misc f d) = Res.ret d) := by
  refine ⟨fun v hv => ?_, fun hv => ?_, fun hv => ?_⟩ <;>
    rw [value_of_token s idx t _ h0 ht] <;> simp [tokenValue, hv]

/-- Witness for C3 on the unit-test token: `u=v` present with value, `w`
present without value, `z` absent with default `dflt`. -/
theorem claim_C3_misc_three_way_witness :
    sentA.value 1 (Layer.Misc "u" (some "dflt")) = Res.ret (some "v") ∧
    sentA.value 1 (Layer.Misc "w" (some "dflt")) = Res.ret none ∧
    sentA.value 1 (Layer.Misc "z" (some "dflt")) = Res.ret (some "dflt") :=
  ⟨(claim_C3_misc_three_way sentA 1 tokA (by decide) rfl "u" (some "dflt")).1
      "v" (by decide),
   (claim_C3_misc_three_way sentA 1 tokA (by decide) rfl "w" (some "dflt")).2.1
      (by decide),
   (claim_C3_misc_three_way sentA 1 tokA (by decide) rfl "z" (some "dflt")).2.2
      (by decide)⟩

/-- C6: for a non-root token index and a `Feature{feature, default}` layer,
`get` returns the value stored under `feature` in the token's morphological
feature map when present, and the default otherwise (which may be none). -/
theorem claim_C6_feature_lookup (s : Sentence) (idx : Nat) (t : Token)
    (h0 : idx ≠ 0) (ht : s.tokens[idx - 1]? = some t) (f : String)
    (d : Option String) :
    (∀ v, lookupAssoc f t.feats = some v →
      s.value idx (Layer.Feature f d) = Res.ret (some v)) ∧
    (lookupAssoc f t.feats = none →
      s.value idx (Layer.Feature f d) = Res.ret d) := by
  refine ⟨fun v hv => ?_, fun hv => ?_⟩ <;>
    rw [value_of_token s idx t _ h0 ht] <;> simp [tokenValue, hv]

/-- Witness for C6 on the unit-test token with features `a=b|c=d`: key `a`
present, key `e` absent with and without a default. -/
theorem claim_C6_feature_lookup_witness :
    sentA.value 1 (Layer.Feature "a" none) = Res.ret (some "b") ∧
    sentA.value 1 (Layer.Feature "e" (some "dflt")) = Res.ret (some "dflt") ∧
    sentA.value 1 (Layer.Feature "e" none) = Res.ret none :=
  ⟨(claim_C6_feature_lookup sentA 1 tokA (by decide) rfl "a" none).1
      "b" (by decide),
   (claim_C6_feature_lookup sentA 1 tokA (by decide) rfl "e" (some "dflt")).2
      (by decide),
   (claim_C6_feature_lookup sentA 1 tokA (by decide) rfl "e" none).2
      (by decide)⟩

/-- C8: every operation (`form`, `get`, `set`) addressed at the root node
(index 0) fails fast with a panic-equivalent abort carrying the source's
assertion message; none of them returns a value or a recoverable error. -/
theorem claim_C8_root_access_panics (s : Sentence) (layer : Layer) (v : String) :
    s.form 0 = Res.panicked "Attempted to set value on root node" ∧
    s.value 0 layer = Res.panicked "Attempted to get value from root node" ∧
    s.set_value 0 layer v = Res.panicked "Attempted to set value on root node" :=
  ⟨rfl, rfl, rfl⟩

/-- Counterexample to C9 as stated: writing the malformed feature string
`ab` (no `=` separator) makes `set` panic via `expect` — the abort is a
panic, not a `MalformedFeatureString` error value reported to the caller
(`set_value` returns no error channel at all). -/
theorem claim_C9_counterexample :
    parseFeatures "ab" = none ∧
    sentB.set_value 1 Layer.FeatureString "ab" =
      Res.panicked "Invalid feature representation" := by
  constructor <;> decide

/-- C9 as amended: for a non-root token index, `set(idx, FeatureString, v)`
parses `v` back into a feature map, and if `v` is malformed the set call
aborts with the fail-fast panic `Invalid feature representation` (raised by
`expect`); no error value is returned to the caller. -/
theorem claim_C9_malformed_feature_string (s : Sentence) (idx : Nat) (t : Token)
    (h0 : idx ≠ 0) (ht : s.tokens[idx - 1]? = some t) (v : String)
    (hv : parseFeatures v = none) :
    s.set_value idx Layer.FeatureString v =
      Res.panicked "Invalid feature representation" := by
  refine set_value_panic s idx t Layer.FeatureString v _ h0 ht ?_
  simp [setTokenValue, hv]

/-- Witness for the amended C9 at the malformed input `ab`. -/
theorem claim_C9_malformed_feature_string_witness :
    sentB.set_value 1 Layer.FeatureString "ab" =
      Res.panicked "Invalid feature representation" :=
  claim_C9_malformed_feature_string sentB 1 tokB (by decide) rfl "ab" (by decide)

theorem set_get_aux (s : Sentence) (idx : Nat) (t t' : Token) (layer : Layer)
    (v : String) (h0 : idx ≠ 0) (ht : s.tokens[idx - 1]? = some t)
    (hset : setTokenValue t layer v = Res.ret t')
    (s' : Sentence) (h : s.set_value idx layer v = Res.ret s') :
    s'.value idx layer = Res.ret (tokenValue t' layer) := by
  obtain ⟨hlt, -⟩ := List.getElem?_eq_some.mp ht
  rw [set_value_ret s idx t t' layer v h0 ht hset] at h
  injection h with h
  subst h
  exact value_of_token _ idx t' layer h0
    (by simpa using List.getElem?_set_eq_of_lt t' hlt)

/-- C7: for a non-root token index, `set(idx, layer, v)` followed by
`get(idx, layer)` returns exactly `Some(v)` for the `UPos`, `XPos`,
`Feature` and `Misc` layers, and for `FeatureString` the rendered form of
the parsed value (parse-then-render stability). -/
theorem claim_C7_set_get_roundtrip (s : Sentence) (idx : Nat) (t : Token)
    (h0 : idx ≠ 0) (ht : s.tokens[idx - 1]? = some t) (v : String) :
    (∀ s', s.set_value idx Layer.UPos v = Res.ret s' →
      s'.value idx Layer.UPos = Res.ret (some v)) ∧
    (∀ s', s.set_value idx Layer.XPos v = Res.ret s' →
      s'.value idx Layer.XPos = Res.ret (some v)) ∧
    (∀ f d s', s.set_value idx (Layer.Feature f d) v = Res.ret s' →
      s'.value idx (Layer.Feature f d) = Res.ret (some v)) ∧
    (∀ f d s', s.set_value idx (Layer.Misc f d) v = Res.ret s' →
      s'.value idx (Layer.Misc f d) = Res.ret (some v)) ∧
    (∀ fs s', parseFeatures v = some fs →
      s.set_value idx Layer.FeatureString v = Res.ret s' →
      s'.value idx Layer.FeatureString = Res.ret (some (renderFeatures fs))) := by
  refine ⟨fun s' h => ?_, fun s' h => ?_, fun f d s' h => ?_, fun f d s' h => ?_,
    fun fs s' hfs h => ?_⟩
  · simpa [tokenValue] using set_get_aux s idx t _ Layer.UPos v h0 ht rfl s' h
  · simpa [tokenValue] using set_get_aux s idx t _ Layer.XPos v h0 ht rfl s' h
  · simpa [tokenValue, lookupAssoc_insertAssoc_self] using
      set_get_aux s idx t _ (Layer.Feature f d) v h0 ht rfl s' h
  · simpa [tokenValue, lookupAssoc_insertAssoc_self] using
      set_get_aux s idx t _ (Layer.Misc f d) v h0 ht rfl s' h
  · have hset : setTokenValue t Layer.FeatureString v =
        Res.ret { t with feats := fs } := by
      simp [setTokenValue, hfs]
    simpa [tokenValue] using
      set_get_aux s idx t _ Layer.FeatureString v h0 ht hset s' h

/-- Witness for C7: each round trip evaluated on the empty test token. -/
theorem claim_C7_set_get_roundtrip_witness :
    (Sentence.mk [{ tokB with upos := some "CP" }]).value 1 Layer.UPos =
      Res.ret (some "CP") ∧
    (Sentence.mk [{ tokB with xpos := some "P" }]).value 1 Layer.XPos =
      Res.ret (some "P") ∧
    (Sentence.mk [{ tokB with feats := [("a", "b")] }]).value 1
      (Layer.Feature "a" none) = Res.ret (some "b") ∧
    (Sentence.mk [{ tokB with misc := [("u", some "v")] }]).value 1
      (Layer.Misc "u" none) = Res.ret (some "v") ∧
    (Sentence.mk [{ tokB with feats := [("a", "b")] }]).value 1
      Layer.FeatureString = Res.ret (some (renderFeatures [("a", "b")])) :=
  ⟨(claim_C7_set_get_roundtrip sentB 1 tokB (by decide) rfl "CP").1
      (Sentence.mk [{ tokB with upos := some "CP" }]) (by decide),
   (claim_C7_set_get_roundtrip sentB 1 tokB (by decide) rfl "P").2.1
      (Sentence.mk [{ tokB with xpos := some "P" }]) (by decide),
   (claim_C7_set_get_roundtrip sentB 1 tokB (by decide) rfl "b").2.2.1
      "a" none (Sentence.mk [{ tokB with feats := [("a", "b")] }]) (by decide),
   (claim_C7_set_get_roundtrip sentB 1 tokB (by decide) rfl "v").2.2.2.1
      "u" none (Sentence.mk [{ tokB with misc := [("u", some "v")] }]) (by decide),
   (claim_C7_set_get_roundtrip sentB 1 tokB (by decide) rfl "a=b").2.2.2.2
      [("a", "b")] (Sentence.mk [{ tokB with feats := [("a", "b")] }])
      (by decide) (by decide)⟩

theorem value_ret_of_range (s : Sentence) (j : Nat) (layer : Layer)
    (h1 : 1 ≤ j) (h2 : j < s.len) :
    ∃ t, s.tokens[j - 1]? = some t ∧
      s.value j layer = Res.ret (tokenValue t layer) := by
  have hlt : j - 1 < s.tokens.length := by
    simp only [Sentence.len] at h2; omega
  exact ⟨s.tokens[j - 1], List.getElem?_eq_getElem hlt,
    value_of_token s j _ layer (by omega) (List.getElem?_eq_getElem hlt)⟩

instance {ε α : Type} [DecidableEq ε] [DecidableEq α] :
    DecidableEq (Except ε α) := fun a b =>
  match a, b with
  | Except.error e, Except.error e' =>
    if h : e = e' then isTrue (by rw [h]) else isFalse (by simp [h])
  | Except.error _, Except.ok _ => isFalse (by simp)
  | Except.ok _, Except.error _ => isFalse (by simp)
  | Except.ok v, Except.ok v' =>
    if h : v = v' then isTrue (by rw [h]) else isFalse (by simp [h])

theorem encodeLoop_ok (layer : Layer) (s : Sentence) :
    ∀ (idxs : List Nat) (l : List String),
    encodeLoop layer s idxs = Res.ret (Except.ok l) →
    l.length = idxs.length ∧
    ∀ (i j : Nat), idxs[i]? = some j → s.value j layer = Res.ret l[i]? := by
  intro idxs
  induction idxs with
  | nil =>
    intro l h
    simp only [encodeLoop, Res.ret.injEq, Except.ok.injEq] at h
    subst h
    exact ⟨rfl, fun i j hij => by simp at hij⟩
  | cons idx rest ih =>
    intro l h
    simp only [encodeLoop] at h
    cases hv : s.value idx layer with
    | panicked m => rw [hv] at h; cases h
    | ret o =>
      rw [hv] at h
      cases o with
      | none =>
        cases hf : s.form idx with
        | panicked m => rw [hf] at h; cases h
        | ret f => rw [hf] at h; cases h
      | some label =>
        cases hrec : encodeLoop layer s rest with
        | panicked m => rw [hrec] at h; cases h
        | ret r =>
          rw [hrec] at h
          cases r with
          | error e => cases h
          | ok ls =>
            simp only [Res.ret.injEq, Except.ok.injEq] at h
            subst h
            obtain ⟨hlen, hget⟩ := ih ls hrec
            refine ⟨by simp [hlen], fun (i j : Nat) hij => ?_⟩
            cases i with
            | zero =>
              simp only [List.getElem?_cons_zero, Option.some.injEq] at hij
              subst hij
              simpa using hv
            | succ i =>
              simp only [List.getElem?_cons_succ] at hij ⊢
              exact hget i j hij

/-- C1: a successful encode of a sentence with `n` nodes returns exactly
`n - 1` strings, in ascending index order, the string at position `i`
being the value that `get(i + 1, layer)` returns. -/
theorem claim_C1_encode_spec (e : LayerEncoder) (s : Sentence) (l : List String)
    (h : e.encode s = Res.ret (Except.ok l)) :
    l.length = s.len - 1 ∧
    ∀ i, i < s.len - 1 → s.value (i + 1) e.layer = Res.ret l[i]? := by
  obtain ⟨hlen, hget⟩ := encodeLoop_ok e.layer s _ l h
  have hr : (List.range' 1 (s.len - 1)).length = s.len - 1 := by simp
  refine ⟨by rw [hlen, hr], fun i hi => ?_⟩
  have hidx : (List.range' 1 (s.len - 1))[i]? = some (1 + i) := by
    rw [List.getElem?_eq_getElem (by simpa using hi)]
    simp [List.getElem_range'_1]
  have := hget i (1 + i) hidx
  rwa [Nat.add_comm 1 i] at this

/-- Witness for C1 on the one-token unit-test sentence under the `UPos`
layer: one label, equal to the token's `upos` value. -/
theorem claim_C1_encode_spec_witness :
    (["CP"] : List String).length = sentA.len - 1 ∧
    sentA.value 1 Layer.UPos = Res.ret (some "CP") := by
  have h := claim_C1_encode_spec (LayerEncoder.new Layer.UPos) sentA ["CP"]
    (by decide)
  exact ⟨h.1, by simpa [LayerEncoder.new] using h.2 0 (by decide)⟩

theorem encodeLoop_error_of (layer : Layer) (s : Sentence) (f : String) :
    ∀ (pre : List Nat) (i : Nat) (post : List Nat),
    (∀ j ∈ pre, ∃ v, s.value j layer = Res.ret (some v)) →
    s.value i layer = Res.ret none →
    s.form i = Res.ret f →
    encodeLoop layer s (pre ++ i :: post) =
      Res.ret (Except.error (EncodeError.MissingLabel f)) := by
  intro pre
  induction pre with
  | nil =>
    intro i post _ hv hf
    simp [encodeLoop, hv, hf]
  | cons j pre ih =>
    intro i post hpre hv hf
    obtain ⟨v, hj⟩ := hpre j (by simp)
    have hrest := ih i post (fun j' hj' => hpre j' (by simp [hj'])) hv hf
    simp [encodeLoop, hj, hrest]

/-- C4: if `get` yields none at a real token index (the first such index),
encode aborts with a `MissingLabel` error carrying that token's surface
form, returned to the caller. -/
theorem claim_C4_missing_label (e : LayerEncoder) (s : Sentence) (i : Nat)
    (t : Token) (h1 : 1 ≤ i) (ht : s.tokens[i - 1]? = some t)
    (hmiss : s.value i e.layer = Res.ret none)
    (hfirst : ∀ j, 1 ≤ j → j < i → s.value j e.layer ≠ Res.ret none) :
    e.encode s = Res.ret (Except.error (EncodeError.MissingLabel t.form)) := by
  have hlen : i < s.len := by
    obtain ⟨hlt, -⟩ := List.getElem?_eq_some.mp ht
    simp only [Sentence.len]
    omega
  have hsplit : List.range' 1 (s.len - 1) =
      List.range' 1 (i - 1) ++ i :: List.range' (i + 1) (s.len - 1 - i) := by
    have h2 : List.range' i (s.len - 1 - i + 1) =
        i :: List.range' (i + 1) (s.len - 1 - i) := List.range'_succ i _ 1
    have h3 := List.range'_append_1 1 (i - 1) (s.len - 1 - i + 1)
    rw [show 1 + (i - 1) = i by omega,
      show s.len - 1 - i + 1 + (i - 1) = s.len - 1 by omega] at h3
    rw [← h3, h2]
  rw [LayerEncoder.encode, hsplit]
  refine encodeLoop_error_of e.layer s t.form _ i _ ?_ hmiss
    (form_of_token s i t (by omega) ht)
  intro j hj
  have hjr := List.mem_range'_1.mp hj
  obtain ⟨t', -, hv⟩ := value_ret_of_range s j e.layer hjr.1 (by omega)
  cases hcase : tokenValue t' e.layer with
  | none =>
    exact absurd (hv.trans (by rw [hcase])) (hfirst j hjr.1 (by omega))
  | some v => exact ⟨v, by rw [hv, hcase]⟩

/-- Witness for C4: encoding the unit-test token with no `upos` under the
`UPos` layer fails with `MissingLabel "test"`. -/
theorem claim_C4_missing_label_witness :
    (LayerEncoder.new Layer.UPos).encode sentB =
      Res.ret (Except.error (EncodeError.MissingLabel "test")) :=
  claim_C4_missing_label (LayerEncoder.new Layer.UPos) sentB 1 tokB
    (by decide) rfl (by decide) (fun j h1 h2 => absurd h2 (by omega))

theorem set_value_ret_inv (s : Sentence) (idx : Nat) (layer : Layer) (v : String)
    (s' : Sentence) (h : s.set_value idx layer v = Res.ret s') :
    ∃ t t', s.tokens[idx - 1]? = some t ∧ setTokenValue t layer v = Res.ret t' ∧
      s'.tokens = s.tokens.set (idx - 1) t' := by
  unfold Sentence.set_value at h
  by_cases h0 : idx = 0
  · rw [if_pos h0] at h; cases h
  · rw [if_neg h0] at h
    cases ht : s.tokens[idx - 1]? with
    | none =>
      simp only [ht] at h
      exact Res.noConfusion h
    | some t =>
      simp only [ht] at h
      cases hset : setTokenValue t layer v with
      | panicked m =>
        simp only [hset] at h
        exact Res.noConfusion h
      | ret t' =>
        simp only [hset, Res.ret.injEq] at h
        exact ⟨t, t', rfl, hset, by rw [← h]⟩

theorem decodeLoop_ret_ok (layer : Layer) :
    ∀ (L : List (List EncodingProb)) (k : Nat) (s s' : Sentence)
    (r : Except String Unit),
    decodeLoop layer L k s = (s', Res.ret r) → r = Except.ok () := by
  intro L
  induction L with
  | nil =>
    intro k s s' r h
    simp only [decodeLoop, Prod.mk.injEq, Res.ret.injEq] at h
    exact h.2.symm
  | cons cands rest ih =>
    intro k s s' r h
    cases cands with
    | nil =>
      simp only [decodeLoop, List.head?_nil] at h
      exact ih (k + 1) s s' r h
    | cons l cs =>
      simp only [decodeLoop, List.head?_cons] at h
      cases hs : s.set_value (k + 1) layer l.encoding with
      | panicked m =>
        simp only [hs] at h
        exact Res.noConfusion (congrArg Prod.snd h)
      | ret s1 => simp only [hs] at h; exact ih (k + 1) s1 s' r h

theorem decodeLoop_untouched (layer : Layer) :
    ∀ (L : List (List EncodingProb)) (k : Nat) (s s' : Sentence)
    (r : Except String Unit),
    decodeLoop layer L k s = (s', Res.ret r) →
    ∀ j, j < k → s'.tokens[j]? = s.tokens[j]? := by
  intro L
  induction L with
  | nil =>
    intro k s s' r h j hj
    simp only [decodeLoop, Prod.mk.injEq] at h
    rw [← h.1]
  | cons cands rest ih =>
    intro k s s' r h j hj
    cases cands with
    | nil =>
      simp only [decodeLoop, List.head?_nil] at h
      exact ih (k + 1) s s' r h j (by omega)
    | cons l cs =>
      simp only [decodeLoop, List.head?_cons] at h
      cases hs : s.set_value (k + 1) layer l.encoding with
      | panicked m =>
        simp only [hs] at h
        exact Res.noConfusion (congrArg Prod.snd h)
      | ret s1 =>
        simp only [hs] at h
        obtain ⟨t, t', ht, hset, htok⟩ :=
          set_value_ret_inv s (k + 1) layer l.encoding s1 hs
        have h1 := ih (k + 1) s1 s' r h j (by omega)
        rw [h1, htok, Nat.add_sub_cancel]
        exact List.getElem?_set_ne (by omega)

theorem decodeLoop_getElem (layer : Layer) :
    ∀ (L : List (List EncodingProb)) (k : Nat) (s s' : Sentence)
    (r : Except String Unit),
    decodeLoop layer L k s = (s', Res.ret r) →
    ∀ (i : Nat),
      (L[i]? = some [] → s'.tokens[k + i]? = s.tokens[k + i]?) ∧
      (∀ c cs, L[i]? = some (c :: cs) →
        ∃ t t', s.tokens[k + i]? = some t ∧
          setTokenValue t layer c.encoding = Res.ret t' ∧
          s'.tokens[k + i]? = some t') := by
  intro L
  induction L with
  | nil =>
    intro k s s' r h i
    exact ⟨fun hE => by simp at hE, fun c cs hE => by simp at hE⟩
  | cons cands rest ih =>
    intro k s s' r h i
    cases i with
    | zero =>
      rw [Nat.add_zero]
      constructor
      · intro hE
        simp only [List.getElem?_cons_zero, Option.some.injEq] at hE
        subst hE
        simp only [decodeLoop, List.head?_nil] at h
        exact decodeLoop_untouched layer rest (k + 1) s s' r h k (by omega)
      · intro c cs hE
        simp only [List.getElem?_cons_zero, Option.some.injEq] at hE
        subst hE
        simp only [decodeLoop, List.head?_cons] at h
        cases hs : s.set_value (k + 1) layer c.encoding with
        | panicked m =>
          simp only [hs] at h
          exact Res.noConfusion (congrArg Prod.snd h)
        | ret s1 =>
          simp only [hs] at h
          obtain ⟨t, t', ht, hset, htok⟩ :=
            set_value_ret_inv s (k + 1) layer c.encoding s1 hs
          rw [Nat.add_sub_cancel] at ht htok
          refine ⟨t, t', ht, hset, ?_⟩
          have h1 := decodeLoop_untouched layer rest (k + 1) s1 s' r h k (by omega)
          obtain ⟨hlt, -⟩ := List.getElem?_eq_some.mp ht
          rw [h1, htok]
          exact List.getElem?_set_eq_of_lt t' hlt
    | succ i =>
      have hrw : k + (i + 1) = k + 1 + i := by omega
      cases cands with
      | nil =>
        simp only [decodeLoop, List.head?_nil] at h
        have hih := ih (k + 1) s s' r h i
        rw [hrw]
        exact ⟨fun hE => hih.1 (by simpa using hE),
          fun c cs hE => hih.2 c cs (by simpa using hE)⟩
      | cons l ls =>
        simp only [decodeLoop, List.head?_cons] at h
        cases hs : s.set_value (k + 1) layer l.encoding with
        | panicked m =>
          simp only [hs] at h
          exact Res.noConfusion (congrArg Prod.snd h)
        | ret s1 =>
          simp only [hs] at h
          obtain ⟨t, t', ht, hset, htok⟩ :=
            set_value_ret_inv s (k + 1) layer l.encoding s1 hs
          rw [Nat.add_sub_cancel] at htok
          have hagree : s1.tokens[k + 1 + i]? = s.tokens[k + 1 + i]? := by
            rw [htok]
            exact List.getElem?_set_ne (by omega)
          have hih := ih (k + 1) s1 s' r h i
          rw [hrw]
          constructor
          · intro hE
            rw [hih.1 (by simpa using hE), hagree]
          · intro c cs hE
            obtain ⟨t2, t2', ht2, hset2, ht2'⟩ := hih.2 c cs (by simpa using hE)
            exact ⟨t2, t2', by rw [← hagree]; exact ht2, hset2, ht2'⟩

/-- C2: when decode is called with `n - 1` candidate lists and returns, each
position with a non-empty candidate list has its token updated by writing
the first candidate's label via `set`, and each position with an empty
candidate list keeps its token (and hence its slot value) unchanged, with
no error. -/
theorem claim_C2_decode_writes_top (e : LayerEncoder)
    (labels : List (List EncodingProb)) (s s' : Sentence)
    (r : Except String Unit) (hlen : labels.length = s.len - 1)
    (h : e.decode labels s = (s', Res.ret r)) :
    ∀ (i : Nat),
      (labels[i]? = some [] → s'.tokens[i]? = s.tokens[i]? ∧
        s'.value (i + 1) e.layer = s.value (i + 1) e.layer) ∧
      (∀ c cs, labels[i]? = some (c :: cs) →
        ∃ t t', s.tokens[i]? = some t ∧
          setTokenValue t e.layer c.encoding = Res.ret t' ∧
          s'.tokens[i]? = some t') := by
  rw [LayerEncoder.decode, if_pos hlen] at h
  intro i
  have hpos := decodeLoop_getElem e.layer labels 0 s s' r h i
  rw [Nat.zero_add] at hpos
  refine ⟨fun hE => ?_, hpos.2⟩
  have htok := hpos.1 hE
  refine ⟨htok, ?_⟩
  simp only [Sentence.value, Nat.add_sub_cancel, htok]

/-- Witness for C2 on a two-token sentence under the `UPos` layer: the
first position's candidate list is empty (token unchanged), the second has
a top candidate that is written. -/
theorem claim_C2_decode_writes_top_witness :
    sentC'.tokens[0]? = sentC.tokens[0]? ∧
    ∃ t t', sentC.tokens[1]? = some t ∧
      setTokenValue t Layer.UPos "NN" = Res.ret t' ∧
      sentC'.tokens[1]? = some t' := by
  have h := claim_C2_decode_writes_top (LayerEncoder.new Layer.UPos)
    [[], [EncodingProb.mk "NN"]] sentC sentC' (Except.ok ())
    (by decide) (by decide)
  exact ⟨((h 0).1 (by decide)).1, (h 1).2 (EncodingProb.mk "NN") [] (by decide)⟩

/-- C5: calling decode with a candidate list whose length differs from
`n - 1` is a fatal contract violation: it aborts with the assertion panic
before writing anything (the sentence is returned exactly as given). -/
theorem claim_C5_decode_length_mismatch (e : LayerEncoder)
    (labels : List (List EncodingProb)) (s : Sentence)
    (h : labels.length ≠ s.len - 1) :
    e.decode labels s = (s, Res.panicked "Labels and sentence length mismatch") := by
  rw [LayerEncoder.decode, if_neg h]

/-- Witness for C5: no candidate list for a one-token sentence panics and
leaves the sentence untouched. -/
theorem claim_C5_decode_length_mismatch_witness :
    (LayerEncoder.new Layer.UPos).decode [] sentB =
      (sentB, Res.panicked "Labels and sentence length mismatch") :=
  claim_C5_decode_length_mismatch (LayerEncoder.new Layer.UPos) [] sentB
    (by decide)

/-- C10: whenever decode is called with a candidate list of the required
length and returns a result value at all (rather than panicking), that
value is `Ok(())`; decode never reports a failure through its returned
result. -/
theorem claim_C10_decode_always_ok (e : LayerEncoder)
    (labels : List (List EncodingProb)) (s s' : Sentence)
    (r : Except String Unit) (hlen : labels.length = s.len - 1)
    (h : e.decode labels s = (s', Res.ret r)) : r = Except.ok () := by
  rw [LayerEncoder.decode, if_pos hlen] at h
  exact decodeLoop_ret_ok e.layer labels 0 s s' r h

/-- Witness for C10 on a concrete one-candidate decode call. -/
theorem claim_C10_decode_always_ok_witness : (Except.ok () : Except String Unit) =
    Except.ok () :=
  claim_C10_decode_always_ok (LayerEncoder.new Layer.UPos)
    [[EncodingProb.mk "NN"]] sentB
    (Sentence.mk [{ tokB with upos := some "NN" }]) (Except.ok ())
    (by decide) (by decide)
